import Mathlib

/-!
Verification of the chat API stream-transcoding route
(`src/app/(chat)/api/chat/route.ts`) of the nextjs-ai-chatbot repository.

The repository file contains two variants of the route.  The first
("variant 1", lines 1-484) is the primary implementation: it talks the
node-tagged incremental protocol and emits AI SDK v6 UI Message Stream
events.  The second ("variant 2", lines 485-844) talks the whole-content
diffing protocol.

Modelling conventions:
* Streamed text content (frame contents, deltas, the accumulated
  assistant message) is modelled as `List Char`; JavaScript string
  truthiness on such a value is `≠ []`, `slice(n)` is `List.drop n`
  (char counting agrees with UTF-16 counting here because `slice` is
  only applied after a `startsWith` guard), `startsWith` is
  `List.isPrefixOf`.
* Identifiers, node tags, roles and error codes are `String`s (they are
  only compared for equality).
* Upstream SSE payloads parse into a tagged union (`UpFrame` for
  variant 1, `V2Frame` for variant 2) mirroring exactly the JSON shapes
  the code distinguishes; a payload that fits none of the shapes, or
  fails `JSON.parse`, is the `malformed` constructor.
* Raw bytes (for the SSE frame decoder) are `List Nat` and decoded
  code points are `List Nat` as well.
-/

/-- One upstream SSE payload of variant 1, as distinguished by
`transformBackendStream` (route.ts lines 194-228): a `{type:"ping"}`
keep-alive, a `{node, content}` frame whose `content` is a string, an
`{error}` frame, the `[DONE]` sentinel, or anything else (including
JSON parse failures, which are logged and skipped). -/
inductive UpFrame where
  | ping
  | content (node : String) (content : List Char)
  | errorFrame (msg : List Char)
  | doneMark
  | malformed
deriving DecidableEq

/-- A normalized client-facing event.  Constructors `start`, `textStart`,
`textDelta`, `textEnd`, `finish` (always with reason "stop"), `error`,
`heartbeat` (`data-heartbeat`; its wall-clock timestamp is not modelled)
and `done` (`data: [DONE]`) are the wire events of variant 1.
`messageStart` (`message-start`), `textDeltaFlat` (a `text-delta` event
carrying a `textDelta` field and no id) and `chatTitle`
(`data-chat-title`) only occur in variant 2. -/
inductive NEvent where
  | start (messageId : String)
  | textStart (id : String)
  | textDelta (id : String) (delta : List Char)
  | textEnd (id : String)
  | finish
  | error (text : List Char)
  | heartbeat
  | done
  | messageStart (id : String)
  | textDeltaFlat (delta : List Char)
  | chatTitle
deriving DecidableEq

/-- Processing of one variant-1 payload by `transformBackendStream`
(route.ts lines 194-228), given the current `textStarted` flag: pings
forward a heartbeat; a `{node, content}` frame with truthy string
content and node `"agent"` or `"model"` emits `text-start` (first time
only) and a `text-delta` carrying the content verbatim; other nodes are
skipped; an `{error}` frame with truthy `error` emits an `error` event;
`[DONE]` and malformed payloads emit nothing. -/
def frameStep (tid : String) (textStarted : Bool) : UpFrame → Bool × List NEvent
  | .ping => (textStarted, [.heartbeat])
  | .content node c =>
    if c ≠ [] then
      if node = "agent" ∨ node = "model" then
        if textStarted then (true, [.textDelta tid c])
        else (true, [.textStart tid, .textDelta tid c])
      else (textStarted, [])
    else (textStarted, [])
  | .errorFrame m => if m ≠ [] then (textStarted, [.error m]) else (textStarted, [])
  | .doneMark => (textStarted, [])
  | .malformed => (textStarted, [])

/-- The variant-1 transcoder loop (route.ts lines 176-231) over a
sequence of already-decoded payloads, threading the `textStarted`
flag. -/
def transformGo (tid : String) (textStarted : Bool) : List UpFrame → Bool × List NEvent
  | [] => (textStarted, [])
  | f :: fs =>
    let r := frameStep tid textStarted f
    let rest := transformGo tid r.1 fs
    (rest.1, r.2 ++ rest.2)

/-- Full output of variant-1 `transformBackendStream` on a complete
upstream stream: the loop's events followed by `text-end` if a text
span was opened (route.ts lines 234-237). -/
def transformEvents (tid : String) (frames : List UpFrame) : List NEvent :=
  let r := transformGo tid false frames
  r.2 ++ (if r.1 then [.textEnd tid] else [])

/-- The client-facing response sink (the `ReadableStream` controller of
the route's POST, wrapped by `safeEnqueue`/`safeClose`,
route.ts lines 335-362): the events written so far, whether it has been
closed, and how many times `controller.close()` was actually reached. -/
structure Sink where
  events : List NEvent
  isClosed : Bool
  closeCalls : Nat
deriving DecidableEq

def initSink : Sink := ⟨[], false, 0⟩

/-- `safeEnqueue` (route.ts lines 343-351): writes after the sink is
closed are silently dropped. -/
def safeEnqueue (s : Sink) (e : NEvent) : Sink :=
  if s.isClosed then s else { s with events := s.events ++ [e] }

/-- `safeClose` (route.ts lines 353-362): closing an already-closed
sink is a no-op. -/
def safeClose (s : Sink) : Sink :=
  if s.isClosed then s else { s with isClosed := true, closeCalls := s.closeCalls + 1 }

/-- Content accumulation for persistence (route.ts lines 373-388): each
enqueued chunk is re-parsed and, when it is a `text-delta` with truthy
`delta`, the delta is appended to `fullContent`. -/
def accumDeltas (evs : List NEvent) : List Char :=
  evs.foldl (fun acc e =>
    match e with
    | .textDelta _ d => if d ≠ [] then acc ++ d else acc
    | _ => acc) []

/-- The fixed error text enqueued (and stored) when the transcoding
session throws mid-stream (route.ts lines 393-396). -/
def errText : List Char := "Backend connection error. Please try again.".toList

/-- Result of running the variant-1 streaming phase. -/
structure StreamOut where
  sink : Sink
  fullContent : List Char
  assistantSaved : Bool
deriving DecidableEq

/-- The variant-1 streaming phase (route.ts lines 335-437): enqueue
`start`; forward every event produced by `transformBackendStream`,
accumulating deltas; if the transcoding session throws mid-stream
(`fails = true`, in which case the loop stops after the events of the
frames read so far, so no `text-end` is emitted) enqueue a synthetic
`error` and overwrite `fullContent` with `errText`; enqueue `finish`
and `[DONE]`; hand `fullContent` to the persistence sink iff it is
nonempty; close the sink. -/
def runStreamV1 (mid tid : String) (frames : List UpFrame) (fails : Bool) : StreamOut :=
  let s1 := safeEnqueue initSink (.start mid)
  let body := if fails then (transformGo tid false frames).2 else transformEvents tid frames
  let s2 := body.foldl safeEnqueue s1
  let acc := accumDeltas body
  let s3 := if fails then safeEnqueue s2 (.error errText) else s2
  let fullContent := if fails then errText else acc
  let s4 := safeEnqueue s3 .finish
  let s5 := safeEnqueue s4 .done
  let s6 := safeClose s5
  ⟨s6, fullContent, !fullContent.isEmpty⟩

/-- The normalized event sequence delivered to the client by the
variant-1 route when streaming happens. -/
def postEventsV1 (mid tid : String) (frames : List UpFrame) (fails : Bool) : List NEvent :=
  (runStreamV1 mid tid frames fails).sink.events

/-- One part of the inbound message (`{type, text?}`); `text` is `some`
exactly when the part carries a `text` field that is a string. -/
structure MsgPart where
  type : String
  text : Option String
deriving DecidableEq

/-- The inbound chat message (`{role, parts}`). -/
structure Message where
  role : String
  parts : List MsgPart
deriving DecidableEq

/-- `extractMessageText` (route.ts lines 69-78): keep the parts whose
`type` is `"text"` and whose `text` is a string, take their texts and
join them with `"\n"`. -/
def extractMessageText (m : Message) : String :=
  String.intercalate "\n"
    ((m.parts.filter (fun p => p.type == "text" && p.text.isSome)).map
      (fun p => p.text.getD ""))

/-- The spec's description of the extraction (spec.md §6): concatenate
every text-typed part's text with newline separators, ignoring
non-text parts. -/
def specMessageText (m : Message) : String :=
  String.intercalate "\n"
    (m.parts.filterMap (fun p => if p.type = "text" then p.text else none))

/-- The non-stream inputs of one POST request: results of the request
body parse, configuration lookup and of every external collaborator
call the route makes before and during streaming. -/
structure ReqEnv where
  bodyValid : Bool
  configured : Bool
  sessionUser : Option String
  messageCount : Nat
  maxMessagesPerDay : Nat
  chatOwner : Option String
  message : Option Message
  backendOk : Bool
  backendHasBody : Bool
  frames : List UpFrame
  streamFails : Bool
deriving DecidableEq

/-- Side effects of one POST request on external collaborators, in
execution order. -/
inductive Effect where
  | savedChat
  | savedUserMessage
  | calledBackend
  | savedAssistant (content : List Char)
  | updatedTitle
deriving DecidableEq

/-- The route's response: a structured `ChatSDKError` response, or the
SSE stream. -/
inductive PostResult where
  | errorResponse (code : String)
  | stream (sink : Sink)
deriving DecidableEq

/-- `message?.role === "user"` (route.ts lines 286, 297). -/
def isUserMessage (env : ReqEnv) : Bool :=
  match env.message with
  | some m => m.role == "user"
  | none => false

/-- `message ? extractMessageText(message) : ""` (route.ts line 313). -/
def messageTextOf (env : ReqEnv) : String :=
  match env.message with
  | some m => extractMessageText m
  | none => ""

/-- The tail of the variant-1 POST handler from the user-message save
onwards (route.ts lines 296-448): save the user message, extract the
text and fail with `bad_request:api` when it is empty, call the
backend (failing with `offline:chat` on a thrown call or a missing
body), then run the streaming phase, appending the assistant save and
the title update to the effect trace. -/
def POSTv1Rest (env : ReqEnv) (mid tid : String) (titleStarted : Bool)
    (effs : List Effect) : PostResult × List Effect :=
  let effs := if isUserMessage env then effs ++ [.savedUserMessage] else effs
  if messageTextOf env = "" then (.errorResponse "bad_request:api", effs)
  else
    let effs := effs ++ [.calledBackend]
    if !env.backendOk then (.errorResponse "offline:chat", effs)
    else if !env.backendHasBody then (.errorResponse "offline:chat", effs)
    else
      let out := runStreamV1 mid tid env.frames env.streamFails
      let effs := effs ++ (if out.assistantSaved then [.savedAssistant out.fullContent] else [])
      let effs := effs ++ (if titleStarted then [.updatedTitle] else [])
      (.stream out.sink, effs)

/-- The variant-1 POST handler (route.ts lines 243-459): body parse,
configuration check, auth, rate limit, chat lookup with ownership
check or chat creation (which also starts title generation), then
`POSTv1Rest`.  The second component is the trace of collaborator side
effects, in order. -/
def POSTv1 (env : ReqEnv) (mid tid : String) : PostResult × List Effect :=
  if !env.bodyValid then (.errorResponse "bad_request:api", [])
  else if !env.configured then (.errorResponse "bad_request:api", [])
  else
    match env.sessionUser with
    | none => (.errorResponse "unauthorized:chat", [])
    | some uid =>
      if env.messageCount > env.maxMessagesPerDay then (.errorResponse "rate_limit:chat", [])
      else
        match env.chatOwner with
        | some owner =>
          if owner ≠ uid then (.errorResponse "forbidden:chat", [])
          else POSTv1Rest env mid tid false []
        | none =>
          if isUserMessage env then POSTv1Rest env mid tid true [.savedChat]
          else POSTv1Rest env mid tid false []

/-- The content carried by a `{node, content}` frame. -/
def contentOf : UpFrame → List Char
  | .content _ c => c
  | _ => []

/-- Says that a frame is a node-tagged content frame whose node is the
agent/model tag and whose content is truthy (nonempty). -/
def AgentContentFrame (f : UpFrame) : Prop :=
  ∃ node c, f = .content node c ∧ (node = "agent" ∨ node = "model") ∧ c ≠ []

def isTextDeltaE : NEvent → Bool
  | .textDelta _ _ => true
  | _ => false

def isFinishE : NEvent → Bool
  | .finish => true
  | _ => false

def isDoneE : NEvent → Bool
  | .done => true
  | _ => false

def isTextEndE (id : String) : NEvent → Bool
  | .textEnd i => i == id
  | _ => false

def isSavedAssistantE : Effect → Bool
  | .savedAssistant _ => true
  | _ => false

/-- The `ChatSDKError` codes the route can return before the upstream
call; all of them map to 4xx client-error responses. -/
def isClientError : PostResult → Bool
  | .errorResponse c =>
    ["bad_request:api", "unauthorized:chat", "rate_limit:chat", "forbidden:chat"].contains c
  | .stream _ => false

/-- The concrete request used to refute C2 as stated: everything is
well-formed but the backend call throws. -/
def envBackendThrow : ReqEnv :=
  { bodyValid := true, configured := true, sessionUser := some "u", messageCount := 0,
    maxMessagesPerDay := 100, chatOwner := some "u",
    message := some ⟨"user", [⟨"text", some "hello"⟩]⟩, backendOk := false,
    backendHasBody := true, frames := [], streamFails := false }

/-- The sequence C2 claims the client receives when the upstream call
throws before any bytes are read: a stream holding exactly `Start`,
`Error`, `Finish`, `Done`, with the sink closed exactly once. -/
def C2ClaimedOutcome (r : PostResult) (mid : String) : Prop :=
  ∃ (s : Sink) (e : List Char),
    r = .stream s ∧ s.events = [.start mid, .error e, .finish, .done] ∧ s.closeCalls = 1

/-- A well-formed request whose transcoding session throws immediately
(before any frame was processed): used to refute C3 as stated. -/
def envMidstreamThrow : ReqEnv :=
  { bodyValid := true, configured := true, sessionUser := some "u", messageCount := 0,
    maxMessagesPerDay := 100, chatOwner := some "u",
    message := some ⟨"user", [⟨"text", some "hello"⟩]⟩, backendOk := true,
    backendHasBody := true, frames := [], streamFails := true }

/-- One upstream SSE payload of variant 2, as distinguished by the
second `transformBackendStream` (route.ts lines 602-620): the `[DONE]`
sentinel; a `{agent: {messages: [...]}}` update whose last message's
`content` is a string (`agentMsg (some c)`) or missing/non-string
(`agentMsg none`, also covering an empty `messages` array); an
`{output}` payload; a bare JSON string; or anything else. -/
inductive V2Frame where
  | doneMark
  | agentMsg (content : Option (List Char))
  | output (content : List Char)
  | rawString (s : List Char)
  | malformed
deriving DecidableEq

/-- The whole-content diffing step of variant 2 (route.ts lines
622-634) against `lastContent`: emit only when the content is truthy
and different; the delta is the suffix when the new content extends
the previous one, the entire content otherwise; `lastContent` is
updated exactly when a truthy delta is emitted. -/
def diffStep (lastContent content : List Char) : List Char × Option (List Char) :=
  if content ≠ [] ∧ content ≠ lastContent then
    let delta := if lastContent.isPrefixOf content then content.drop lastContent.length
                 else content
    if delta ≠ [] then (content, some delta) else (lastContent, none)
  else (lastContent, none)

/-- C5's statement of the diffing step, read literally from the spec:
equal content emits nothing; a prefix-extension emits the suffix; any
other content emits the entire new content as the delta; and
`lastEmittedContent` updates exactly on every non-empty delta. -/
def diffStepClaimed (lastContent content : List Char) : List Char × Option (List Char) :=
  if content = lastContent then (lastContent, none)
  else
    let delta := if lastContent.isPrefixOf content then content.drop lastContent.length
                 else content
    (if delta ≠ [] then content else lastContent, some delta)

/-- The claimed step with the single correction the counterexample
forces: empty new content emits nothing (it is falsy, so the code
skips it before any diffing). -/
def diffStepAmended (lastContent content : List Char) : List Char × Option (List Char) :=
  if content = lastContent ∨ content = [] then (lastContent, none)
  else if lastContent.isPrefixOf content then (content, some (content.drop lastContent.length))
  else (content, some content)

/-- Variant-2 content extraction from one parsed payload (route.ts
lines 606-620), followed by the diffing step; `doneMark` yields the
`finish` event (route.ts lines 594-600). -/
def v2Step (last : List Char) : V2Frame → List Char × List NEvent
  | .doneMark => (last, [.finish])
  | .agentMsg c =>
    match c with
    | some c =>
      match diffStep last c with
      | (l, some d) => (l, [.textDeltaFlat d])
      | (l, none) => (l, [])
    | none => (last, [])
  | .output c =>
    if c ≠ [] then
      match diffStep last c with
      | (l, some d) => (l, [.textDeltaFlat d])
      | (l, none) => (l, [])
    else (last, [])
  | .rawString s =>
    match diffStep last s with
    | (l, some d) => (l, [.textDeltaFlat d])
    | (l, none) => (l, [])
  | .malformed => (last, [])

/-- The variant-2 transcoder loop (route.ts lines 581-641), threading
`lastContent`. -/
def transformV2Go (last : List Char) : List V2Frame → List Char × List NEvent
  | [] => (last, [])
  | f :: fs =>
    let r := v2Step last f
    let rest := transformV2Go r.1 fs
    (rest.1, r.2 ++ rest.2)

/-- The event sequence the variant-2 POST delivers to the client on
the happy path (route.ts lines 734-799): `message-start`, the
transcoder output, and -- when the chat was new -- a `data-chat-title`
event after everything else; no terminal `[DONE]` is ever written and
`finish` is produced only by upstream `[DONE]` sentinels. -/
def postEventsV2 (mid : String) (frames : List V2Frame) (hadTitle : Bool) : List NEvent :=
  .messageStart mid :: (transformV2Go [] frames).2 ++ (if hadTitle then [.chatTitle] else [])

/-- Sequence of deltas emitted by the variant-2 diffing for a list of
successive full-content values. -/
def diffRun (last : List Char) : List (List Char) → List Char × List (List Char)
  | [] => (last, [])
  | c :: cs =>
    let r := diffStep last c
    let rest := diffRun r.1 cs
    (rest.1, (match r.2 with | some d => [d] | none => []) ++ rest.2)

/-- The ordering invariant of the normalized client-facing stream
(spec.md §3): `TextStart` precedes any `TextDelta` with the same id;
`TextEnd` follows the last `TextDelta` for that id and is emitted at
most once; `Finish` and `Done` are each emitted exactly once and are
the last two events. -/
def C4Invariant (evs : List NEvent) : Prop :=
  (∀ pre post id d, evs = pre ++ .textDelta id d :: post → .textStart id ∈ pre)
  ∧ (∀ id, evs.countP (isTextEndE id) ≤ 1)
  ∧ (∀ pre post id, evs = pre ++ .textEnd id :: post → ∀ d, .textDelta id d ∉ post)
  ∧ evs.countP isFinishE = 1 ∧ evs.countP isDoneE = 1
  ∧ ∃ front, evs = front ++ [.finish, .done]

/-- State of the WHATWG incremental UTF-8 decoder backing
`new TextDecoder()` with `decode(value, {stream: true})`
(route.ts lines 171, 180): the partially assembled code point, how
many continuation bytes are still needed, and the admissible range of
the next byte. -/
structure Utf8State where
  codePoint : Nat
  bytesNeeded : Nat
  lowerBoundary : Nat
  upperBoundary : Nat
deriving DecidableEq

def utf8Init : Utf8State := ⟨0, 0, 0x80, 0xBF⟩

/-- Handling of a byte in the initial decoder state (WHATWG utf-8
decoder, `bytes needed = 0` branch): ASCII passes through, lead bytes
set up the continuation window, anything else yields U+FFFD. -/
def utf8Start (b : Nat) : Utf8State × List Nat :=
  if b ≤ 0x7F then (utf8Init, [b])
  else if 0xC2 ≤ b ∧ b ≤ 0xDF then
    ({ codePoint := b &&& 0x1F, bytesNeeded := 1, lowerBoundary := 0x80,
       upperBoundary := 0xBF }, [])
  else if 0xE0 ≤ b ∧ b ≤ 0xEF then
    ({ codePoint := b &&& 0xF, bytesNeeded := 2,
       lowerBoundary := if b = 0xE0 then 0xA0 else 0x80,
       upperBoundary := if b = 0xED then 0x9F else 0xBF }, [])
  else if 0xF0 ≤ b ∧ b ≤ 0xF4 then
    ({ codePoint := b &&& 0x7, bytesNeeded := 3,
       lowerBoundary := if b = 0xF0 then 0x90 else 0x80,
       upperBoundary := if b = 0xF4 then 0x8F else 0xBF }, [])
  else (utf8Init, [0xFFFD])

/-- One byte of the WHATWG utf-8 decoder.  A continuation byte outside
the admissible window emits U+FFFD and reprocesses the byte in the
initial state (the spec's "prepend byte to stream"). -/
def utf8Step (st : Utf8State) (b : Nat) : Utf8State × List Nat :=
  if st.bytesNeeded = 0 then utf8Start b
  else if st.lowerBoundary ≤ b ∧ b ≤ st.upperBoundary then
    (if st.bytesNeeded = 1 then (utf8Init, [(st.codePoint <<< 6) ||| (b &&& 0x3F)])
     else ({ codePoint := (st.codePoint <<< 6) ||| (b &&& 0x3F),
             bytesNeeded := st.bytesNeeded - 1, lowerBoundary := 0x80,
             upperBoundary := 0xBF }, []))
  else
    let r := utf8Start b
    (r.1, 0xFFFD :: r.2)

/-- Streaming UTF-8 decode of a byte chunk: bytes held back for an
incomplete sequence stay in the state, exactly like
`decoder.decode(value, {stream: true})`. -/
def utf8Feed (st : Utf8State) : List Nat → Utf8State × List Nat
  | [] => (st, [])
  | b :: bs =>
    let r := utf8Step st b
    let rest := utf8Feed r.1 bs
    (rest.1, r.2 ++ rest.2)

/-- The `TextDecoder` BOM discipline (`ignoreBOM` left unset): the
first decoded code point of the stream is skipped when it is
U+FEFF. -/
def bomStep (seen : Bool) (c : Nat) : Bool × List Nat :=
  if seen then (true, [c]) else (true, if c = 0xFEFF then [] else [c])

def bomFeed (seen : Bool) : List Nat → Bool × List Nat
  | [] => (seen, [])
  | c :: cs =>
    let r := bomStep seen c
    let rest := bomFeed r.1 cs
    (rest.1, r.2 ++ rest.2)

/-- `buffer.split("\n")` (route.ts line 181) on a decoded code-point
string: the segments between line feeds; always nonempty, the last
segment being the text after the final line feed. -/
def splitNL : List Nat → List (List Nat)
  | [] => [[]]
  | c :: rest =>
    let r := splitNL rest
    if c = 10 then [] :: r
    else (c :: r.headD []) :: r.tail

/-- `split("\n")` immediately followed by `pop()` (route.ts lines
181-182), fused: the complete lines and the held-back partial
line. -/
def splitCarry : List Nat → List (List Nat) × List Nat
  | [] => ([], [])
  | c :: rest =>
    let r := splitCarry rest
    if c = 10 then ([] :: r.1, r.2)
    else
      match r.1 with
      | [] => ([], c :: r.2)
      | l :: ls => ((c :: l) :: ls, r.2)

/-- The SSE Frame Decoder's per-request state (route.ts lines 171-172):
the `TextDecoder`'s internal state (UTF-8 carry and BOM flag) and the
held-back partial line `buffer`. -/
structure DecState where
  utf8 : Utf8State
  bomSeen : Bool
  buffer : List Nat
deriving DecidableEq

def initDecState : DecState := ⟨utf8Init, false, []⟩

/-- Processing of one byte chunk by the decoder loop body (route.ts
lines 180-182): incrementally decode the bytes, append to the carry
buffer, split on line feeds and hold back the final (possibly
incomplete) line; the complete lines are handed on. -/
def decodeChunk (st : DecState) (chunk : List Nat) : DecState × List (List Nat) :=
  let u := utf8Feed st.utf8 chunk
  let bm := bomFeed st.bomSeen u.2
  let parts := splitNL (st.buffer ++ bm.2)
  (⟨u.1, bm.1, parts.getLastD []⟩, parts.dropLast)

/-- The code points of `"data: "`. -/
def dataPrefix : List Nat := [100, 97, 116, 97, 58, 32]

/-- The JavaScript `String.prototype.trim` whitespace set
(WhiteSpace and LineTerminator code points). -/
def isJsWhitespace (c : Nat) : Bool :=
  [9, 10, 11, 12, 13, 32, 0xA0, 0x1680, 0x2000, 0x2001, 0x2002, 0x2003, 0x2004, 0x2005,
    0x2006, 0x2007, 0x2008, 0x2009, 0x200A, 0x2028, 0x2029, 0x202F, 0x205F, 0x3000,
    0xFEFF].contains c

/-- `String.prototype.trim`. -/
def trimWS (l : List Nat) : List Nat :=
  ((l.dropWhile isJsWhitespace).reverse.dropWhile isJsWhitespace).reverse

/-- Per-line payload extraction (route.ts lines 185-186): a line
carrying the `data: ` marker yields `line.slice(6).trim()`; other
lines are ignored. -/
def payloadOfLine (line : List Nat) : Option (List Nat) :=
  if dataPrefix.isPrefixOf line then some (trimWS (line.drop 6)) else none

def payloadsOfLines (lines : List (List Nat)) : List (List Nat) :=
  lines.filterMap payloadOfLine

/-- The SSE Frame Decoder run over a sequence of byte chunks: the final
state and the decoded payload strings, in order. -/
def decodePayloads (st : DecState) : List (List Nat) → DecState × List (List Nat)
  | [] => (st, [])
  | c :: cs =>
    let r := decodeChunk st c
    let rest := decodePayloads r.1 cs
    (rest.1, payloadsOfLines r.2 ++ rest.2)

theorem sanity_postEventsV1 :
    postEventsV1 "m" "t" [.content "agent" "4".toList] false
      = [.start "m", .textStart "t", .textDelta "t" "4".toList, .textEnd "t", .finish, .done] := by
  decide

theorem safeEnqueue_open (ev : List NEvent) (c : Nat) (e : NEvent) :
    safeEnqueue ⟨ev, false, c⟩ e = ⟨ev ++ [e], false, c⟩ := by
  simp [safeEnqueue]

theorem safeClose_open (ev : List NEvent) (c : Nat) :
    safeClose ⟨ev, false, c⟩ = ⟨ev, true, c + 1⟩ := by
  simp [safeClose]

theorem foldl_safeEnqueue_open (evs ev : List NEvent) (c : Nat) :
    evs.foldl safeEnqueue ⟨ev, false, c⟩ = ⟨ev ++ evs, false, c⟩ := by
  induction evs generalizing ev with
  | nil => simp
  | cons e evs ih => simp [safeEnqueue_open, ih]

/-- Unfolded description of the variant-1 streaming phase: the exact
event sequence, the close discipline and the stored content. -/
theorem runStreamV1_spec (mid tid : String) (frames : List UpFrame) (fails : Bool) :
    (runStreamV1 mid tid frames fails).sink.events
        = .start mid ::
          ((if fails then (transformGo tid false frames).2 ++ [.error errText]
            else transformEvents tid frames) ++ [.finish, .done])
    ∧ (runStreamV1 mid tid frames fails).sink.isClosed = true
    ∧ (runStreamV1 mid tid frames fails).sink.closeCalls = 1
    ∧ (runStreamV1 mid tid frames fails).fullContent
        = (if fails then errText else accumDeltas (transformEvents tid frames))
    ∧ (runStreamV1 mid tid frames fails).assistantSaved
        = !(runStreamV1 mid tid frames fails).fullContent.isEmpty := by
  cases fails <;>
    simp [runStreamV1, initSink, safeEnqueue_open, foldl_safeEnqueue_open, safeClose_open,
      List.append_assoc]

/-- C6 helper: there is no way to close the sink twice in the model. -/
theorem safeClose_safeClose (s : Sink) : safeClose (safeClose s) = safeClose s := by
  by_cases h : s.isClosed <;> simp [safeClose, h]

/-- C8 helper: a tools-tagged content frame leaves the transcoder state
unchanged and emits nothing (route.ts line 209: only `agent`/`model`
nodes pass the filter). -/
theorem frameStep_tools (tid : String) (st : Bool) (c : List Char) :
    frameStep tid st (.content "tools" c) = (st, []) := by
  by_cases h : c = [] <;> simp [frameStep, h]

/-- C8 -- An upstream frame tagged as a tool-execution node (node
`"tools"`) never produces a `TextDelta` event, regardless of its
content and of the surrounding frame sequence: deleting such a frame
from anywhere in the upstream sequence leaves the transcoder output
(state and every emitted event, in particular every `text-delta`)
unchanged, and consequently leaves the whole client-facing stream
unchanged. -/
theorem tools_frame_produces_nothing (tid : String) (st : Bool)
    (pre post : List UpFrame) (c : List Char) (mid : String) (fails : Bool) :
    transformGo tid st (pre ++ .content "tools" c :: post) = transformGo tid st (pre ++ post)
    ∧ postEventsV1 mid tid (pre ++ .content "tools" c :: post) fails
        = postEventsV1 mid tid (pre ++ post) fails := by
  have hgo : ∀ (pre : List UpFrame) (st : Bool),
      transformGo tid st (pre ++ .content "tools" c :: post) = transformGo tid st (pre ++ post) := by
    intro pre
    induction pre with
    | nil => intro st; simp [transformGo, frameStep_tools]
    | cons f fs ih => intro st; simp [transformGo, ih]
  refine ⟨hgo pre st, ?_⟩
  simp [postEventsV1, runStreamV1, transformEvents, hgo]

/-- C6 -- If the transcoding session raises an exception mid-stream
(after streaming to the client has started, modelled by `fails = true`
with `frames` the frames read before the exception), the Output
Multiplexer still emits a synthetic `Error` event, then `Finish`
(reason "stop"), then `Done`, after the events already forwarded, and
then closes the sink exactly once, so the client always observes a
well-formed terminal sequence. -/
theorem midstream_error_terminal_sequence (mid tid : String) (frames : List UpFrame) :
    (runStreamV1 mid tid frames true).sink.events
        = .start mid :: (transformGo tid false frames).2 ++ [.error errText, .finish, .done]
    ∧ (runStreamV1 mid tid frames true).sink.isClosed = true
    ∧ (runStreamV1 mid tid frames true).sink.closeCalls = 1 := by
  obtain ⟨h1, h2, h3, -⟩ := runStreamV1_spec mid tid frames true
  refine ⟨?_, h2, h3⟩
  simpa using h1

theorem frameStep_agentish (tid : String) (st : Bool) (f : UpFrame) (h : AgentContentFrame f) :
    frameStep tid st f
      = (true, (if st then [] else [.textStart tid]) ++ [.textDelta tid (contentOf f)]) := by
  obtain ⟨node, c, rfl, hnode, hc⟩ := h
  cases st <;> rcases hnode with h | h <;> simp [frameStep, contentOf, h, hc]

theorem transformGo_agentish (tid : String) (frames : List UpFrame)
    (h : ∀ f ∈ frames, AgentContentFrame f) :
    transformGo tid true frames = (true, frames.map (fun f => .textDelta tid (contentOf f))) := by
  induction frames with
  | nil => simp [transformGo]
  | cons f fs ih =>
    have hf := frameStep_agentish tid true f (h f (by simp))
    simp only [transformGo, hf]
    simp [ih fun g hg => h g (by simp [hg])]

/-- C1 (amended) -- For every nonempty upstream frame sequence
consisting only of node-tagged content frames whose node is `"agent"`
or `"model"` and whose content is nonempty, the client-facing
normalized event sequence is exactly: `Start`, one `TextStart`, one
`TextDelta` per input frame whose delta equals that frame's content
string verbatim (in order), one `TextEnd`, then `Finish`, then
`Done`. -/
theorem agent_frames_stream_shape (mid tid : String) (frames : List UpFrame)
    (hne : frames ≠ []) (h : ∀ f ∈ frames, AgentContentFrame f) :
    postEventsV1 mid tid frames false
      = .start mid :: .textStart tid ::
          (frames.map (fun f => .textDelta tid (contentOf f)) ++ [.textEnd tid, .finish, .done]) := by
  obtain ⟨f, fs, rfl⟩ := List.exists_cons_of_ne_nil hne
  have hf := frameStep_agentish tid false f (h f (by simp))
  have hfs := transformGo_agentish tid fs fun g hg => h g (by simp [hg])
  have hev : (runStreamV1 mid tid (f :: fs) false).sink.events
      = .start mid :: (transformEvents tid (f :: fs) ++ [.finish, .done]) := by
    simpa using (runStreamV1_spec mid tid (f :: fs) false).1
  rw [postEventsV1, hev]
  simp only [transformEvents, transformGo, hf, hfs]
  simp

/-- C1 witness: the end-to-end scenario of spec.md §8 -- upstream emits
`{"node":"agent","content":"4"}`; the client stream is `Start`,
`TextStart`, `TextDelta{"4"}`, `TextEnd`, `Finish`, `Done`. -/
theorem agent_frames_stream_shape_witness :
    postEventsV1 "m" "t" [.content "agent" "4".toList] false
      = [.start "m", .textStart "t", .textDelta "t" "4".toList, .textEnd "t", .finish, .done] := by
  have := agent_frames_stream_shape "m" "t" [.content "agent" "4".toList]
    (by decide)
    (by
      intro f hf
      simp only [List.mem_singleton] at hf
      exact ⟨"agent", "4".toList, hf, Or.inl rfl, by decide⟩)
  simpa using this

/-- C1 counterexample -- the claim as stated fails on the code: an
upstream frame tagged `agent` whose content is the empty string is a
node-tagged content frame, yet (because `parsed.content` is falsy,
route.ts line 205) it produces no `TextStart` and no `TextDelta`: the
client sequence is `[Start, Finish, Done]`, not the claimed
`[Start, TextStart, TextDelta{""}, TextEnd, Finish, Done]`. -/
theorem agent_empty_content_frame_refutes_c1 :
    postEventsV1 "m" "t" [.content "agent" []] false = [.start "m", .finish, .done]
    ∧ postEventsV1 "m" "t" [.content "agent" []] false
        ≠ [.start "m", .textStart "t", .textDelta "t" [], .textEnd "t", .finish, .done] := by
  constructor <;> decide

/-- C9 -- The inbound request's message text is extracted by
concatenating every text-typed part's text with newline separators,
ignoring non-text parts (`extractMessageText` agrees with the spec's
description `specMessageText`); and whenever this extraction yields
the empty string, the request fails with a client error response and
no upstream backend call is made. -/
theorem empty_extracted_text_fails_before_backend :
    (∀ m : Message, extractMessageText m = specMessageText m)
    ∧ ∀ (env : ReqEnv) (mid tid : String), messageTextOf env = "" →
        isClientError (POSTv1 env mid tid).1 = true
        ∧ Effect.calledBackend ∉ (POSTv1 env mid tid).2 := by
  constructor
  · intro m
    unfold extractMessageText specMessageText
    congr 1
    induction m.parts with
    | nil => rfl
    | cons p ps ih =>
      obtain ⟨t, txt⟩ := p
      by_cases ht : t = "text"
      · cases txt <;> simp [ht, ih]
      · simp [ht, ih]
  · intro env mid tid h
    unfold POSTv1 POSTv1Rest
    cases hb : env.bodyValid
    · simp [isClientError]
    · cases hc : env.configured
      · simp [isClientError]
      · cases hs : env.sessionUser with
        | none => simp [isClientError]
        | some uid =>
          by_cases hr : env.maxMessagesPerDay < env.messageCount
          · simp [hr, isClientError]
          · cases ho : env.chatOwner with
            | some owner =>
              by_cases how : owner ≠ uid
              · simp [hr, how, isClientError]
              · cases him : isUserMessage env <;> simp [hr, how, h, him, isClientError]
            | none =>
              cases him : isUserMessage env <;> simp [hr, h, him, isClientError]

/-- C9 witness: a request whose message has a single non-text part
extracts to the empty string, is answered with a client error and
never reaches the backend. -/
theorem empty_extracted_text_fails_before_backend_witness :
    messageTextOf
        { bodyValid := true, configured := true, sessionUser := some "u", messageCount := 0,
          maxMessagesPerDay := 100, chatOwner := some "u",
          message := some ⟨"user", [⟨"image", none⟩]⟩, backendOk := true, backendHasBody := true,
          frames := [], streamFails := false } = ""
    ∧ isClientError (POSTv1
        { bodyValid := true, configured := true, sessionUser := some "u", messageCount := 0,
          maxMessagesPerDay := 100, chatOwner := some "u",
          message := some ⟨"user", [⟨"image", none⟩]⟩, backendOk := true, backendHasBody := true,
          frames := [], streamFails := false } "m" "t").1 = true := by
  refine ⟨by decide, (empty_extracted_text_fails_before_backend.2 _ "m" "t" (by decide)).1⟩

/-- C10 -- For every request whose message has role `"user"` and whose
extracted text is empty (and which passes the body, configuration,
auth, rate-limit and ownership guards), the `bad_request:api` response
is returned only after the user message has already been saved and,
when the chat did not yet exist, after the chat record has been
created: the effect trace at the moment of the return is exactly
`[savedChat, savedUserMessage]` for a new chat and
`[savedUserMessage]` for an existing owned chat. -/
theorem empty_text_failure_mutates_state (env : ReqEnv) (mid tid u : String) (m : Message)
    (h1 : env.bodyValid = true) (h2 : env.configured = true)
    (h3 : env.sessionUser = some u)
    (h4 : ¬env.maxMessagesPerDay < env.messageCount)
    (h6 : env.message = some m) (h7 : m.role = "user")
    (h8 : extractMessageText m = "") :
    (env.chatOwner = none →
      POSTv1 env mid tid = (.errorResponse "bad_request:api", [.savedChat, .savedUserMessage]))
    ∧ (env.chatOwner = some u →
      POSTv1 env mid tid = (.errorResponse "bad_request:api", [.savedUserMessage])) := by
  have him : isUserMessage env = true := by simp [isUserMessage, h6, h7]
  have hmt : messageTextOf env = "" := by simp [messageTextOf, h6, h8]
  constructor <;> intro ho <;>
    simp [POSTv1, POSTv1Rest, h1, h2, h3, h4, ho, him, hmt]

/-- C10 witness: a fresh chat, a user message whose only part is
non-text; the route creates the chat, saves the user message and only
then answers `bad_request:api`. -/
theorem empty_text_failure_mutates_state_witness :
    POSTv1
        { bodyValid := true, configured := true, sessionUser := some "u", messageCount := 0,
          maxMessagesPerDay := 100, chatOwner := none,
          message := some ⟨"user", [⟨"image", none⟩]⟩, backendOk := true, backendHasBody := true,
          frames := [], streamFails := false } "m" "t"
      = (.errorResponse "bad_request:api", [.savedChat, .savedUserMessage]) :=
  (empty_text_failure_mutates_state _ "m" "t" "u" ⟨"user", [⟨"image", none⟩]⟩
    rfl rfl rfl (by decide) rfl rfl (by decide)).1 rfl

/-- C2 (amended) -- If the Upstream Client call (`callRenderBackend`)
throws, the route returns the structured `offline:chat`
(`BackendUnavailable`) error response: the output stream is never
created, so the client receives an error response rather than any
normalized events. -/
theorem backend_throw_yields_error_response (env : ReqEnv) (mid tid u : String)
    (h1 : env.bodyValid = true) (h2 : env.configured = true)
    (h3 : env.sessionUser = some u)
    (h4 : ¬env.maxMessagesPerDay < env.messageCount)
    (h5 : env.chatOwner = none ∨ env.chatOwner = some u)
    (h6 : messageTextOf env ≠ "")
    (h7 : env.backendOk = false) :
    (POSTv1 env mid tid).1 = .errorResponse "offline:chat"
    ∧ ∀ s : Sink, (POSTv1 env mid tid).1 ≠ .stream s := by
  have hmain : (POSTv1 env mid tid).1 = .errorResponse "offline:chat" := by
    rcases h5 with ho | ho <;>
      cases him : isUserMessage env <;>
        simp [POSTv1, POSTv1Rest, h1, h2, h3, h4, ho, him, h6, h7]
  exact ⟨hmain, fun s hs => by rw [hmain] at hs; exact PostResult.noConfusion hs⟩

/-- C2 counterexample -- the claim as stated fails on the code: when
`callRenderBackend` throws, the route returns the `offline:chat` error
response (route.ts lines 321-326) instead of streaming
`Start, Error, Finish, Done`. -/
theorem backend_throw_refutes_c2 :
    (POSTv1 envBackendThrow "m" "t").1 = .errorResponse "offline:chat"
    ∧ ¬ C2ClaimedOutcome (POSTv1 envBackendThrow "m" "t").1 "m" := by
  have h : (POSTv1 envBackendThrow "m" "t").1 = .errorResponse "offline:chat" := by decide
  refine ⟨h, fun hc => ?_⟩
  obtain ⟨s, e, hs, -, -⟩ := hc
  rw [h] at hs
  exact PostResult.noConfusion hs

/-- C2 witness for the amended claim, at the same concrete request. -/
theorem backend_throw_yields_error_response_witness :
    (POSTv1 envBackendThrow "m" "t").1 = .errorResponse "offline:chat" :=
  (backend_throw_yields_error_response envBackendThrow "m" "t" "u"
    rfl rfl rfl (by decide) (Or.inr rfl) (by decide) rfl).1

theorem runStreamV1_fullContent (mid tid : String) (fr : List UpFrame) (fails : Bool) :
    (runStreamV1 mid tid fr fails).fullContent
      = if fails then errText else accumDeltas (transformEvents tid fr) :=
  (runStreamV1_spec mid tid fr fails).2.2.2.1

theorem runStreamV1_saved (mid tid : String) (fr : List UpFrame) (fails : Bool) :
    (runStreamV1 mid tid fr fails).assistantSaved
      = !(runStreamV1 mid tid fr fails).fullContent.isEmpty :=
  (runStreamV1_spec mid tid fr fails).2.2.2.2

theorem no_assist_of_countP_zero (effs : List Effect)
    (h : effs.countP isSavedAssistantE = 0) (c : List Char) :
    Effect.savedAssistant c ∉ effs := by
  intro hc
  have := List.countP_eq_zero.mp h _ hc
  simp [isSavedAssistantE] at this

theorem accumDeltas_of_no_delta (evs : List NEvent) (h : evs.countP isTextDeltaE = 0) :
    accumDeltas evs = [] := by
  unfold accumDeltas
  induction evs with
  | nil => rfl
  | cons e evs ih =>
    rw [List.countP_cons] at h
    cases hc : isTextDeltaE e
    · rw [hc] at h
      simp only [Bool.false_eq_true, if_false, Nat.add_zero] at h
      cases e
      all_goals first
      | (rw [List.foldl_cons]; exact ih h)
      | (simp [isTextDeltaE] at hc)
    · rw [hc] at h
      simp at h

theorem POSTv1Rest_assist (env : ReqEnv) (mid tid : String) (ts : Bool) (effs0 : List Effect)
    (h0 : effs0.countP isSavedAssistantE = 0) :
    (POSTv1Rest env mid tid ts effs0).2.countP isSavedAssistantE ≤ 1
    ∧ ∀ c, .savedAssistant c ∈ (POSTv1Rest env mid tid ts effs0).2 →
        c = (runStreamV1 mid tid env.frames env.streamFails).fullContent ∧ c ≠ [] := by
  have h1 : (if isUserMessage env then effs0 ++ [Effect.savedUserMessage] else effs0).countP
      isSavedAssistantE = 0 := by
    cases isUserMessage env <;> simp [List.countP_append, isSavedAssistantE, h0]
  unfold POSTv1Rest
  set effs1 := if isUserMessage env then effs0 ++ [Effect.savedUserMessage] else effs0 with heffs1
  have h2 : (effs1 ++ [Effect.calledBackend]).countP isSavedAssistantE = 0 := by
    simp [List.countP_append, isSavedAssistantE, h1]
  by_cases hmt : messageTextOf env = ""
  · rw [if_pos hmt]
    exact ⟨by simp [h1], fun c hc => absurd hc (no_assist_of_countP_zero _ h1 c)⟩
  · rw [if_neg hmt]
    cases hbo : env.backendOk
    · simp only [hbo, Bool.not_false, if_true]
      exact ⟨by simp [h2], fun c hc => absurd hc (no_assist_of_countP_zero _ h2 c)⟩
    · simp only [hbo, Bool.not_true, Bool.false_eq_true, if_false]
      cases hbb : env.backendHasBody
      · simp only [Bool.not_false, if_true]
        exact ⟨by simp [h2], fun c hc => absurd hc (no_assist_of_countP_zero _ h2 c)⟩
      · simp only [Bool.not_true, Bool.false_eq_true, if_false]
        cases hsa : (runStreamV1 mid tid env.frames env.streamFails).assistantSaved
        · simp only [hsa, Bool.false_eq_true, if_false, List.append_nil]
          constructor
          · cases ts <;> simp [List.countP_append, isSavedAssistantE] <;> omega
          · intro c hc
            simp only [List.mem_append] at hc
            rcases hc with (hc | hc) | hc
            · exact absurd hc (no_assist_of_countP_zero _ h1 c)
            · simp at hc
            · cases ts <;> simp at hc
        · simp only [hsa, if_true]
          have hsv := runStreamV1_saved mid tid env.frames env.streamFails
          rw [hsa] at hsv
          have hfe : (runStreamV1 mid tid env.frames env.streamFails).fullContent.isEmpty
              = false := by
            cases hie : (runStreamV1 mid tid env.frames env.streamFails).fullContent.isEmpty
            · rfl
            · rw [hie] at hsv; simp at hsv
          constructor
          · cases ts <;> simp [List.countP_append, isSavedAssistantE, h1]
          · intro c hc
            simp only [List.mem_append] at hc
            rcases hc with ((hc | hc) | hc) | hc
            · exact absurd hc (no_assist_of_countP_zero _ h1 c)
            · simp at hc
            · simp only [List.mem_singleton, Effect.savedAssistant.injEq] at hc
              subst hc
              refine ⟨rfl, fun hnil => ?_⟩
              rw [hnil] at hfe
              simp at hfe
            · cases ts <;> simp at hc

/-- C3 (amended) -- For every request, the Persistence Sink
(`saveMessages` for the assistant message) is invoked at most once; an
assistant message is handed to it exactly with the stream's
`fullContent`, which is nonempty -- where `fullContent` is the
concatenation of the emitted deltas unless the transcoding session
threw mid-stream, in which case it is replaced by the fixed error text
(route.ts line 396); in particular, when no mid-stream error occurred
and zero `text-delta` text was emitted, no assistant message is handed
to the Persistence Sink. -/
theorem assistant_save_at_most_once (env : ReqEnv) (mid tid : String) :
    (POSTv1 env mid tid).2.countP isSavedAssistantE ≤ 1
    ∧ (∀ c, .savedAssistant c ∈ (POSTv1 env mid tid).2 →
        c = (runStreamV1 mid tid env.frames env.streamFails).fullContent ∧ c ≠ [])
    ∧ (env.streamFails = false →
        (transformEvents tid env.frames).countP isTextDeltaE = 0 →
        ∀ c, Effect.savedAssistant c ∉ (POSTv1 env mid tid).2) := by
  have main : (POSTv1 env mid tid).2.countP isSavedAssistantE ≤ 1
      ∧ ∀ c, .savedAssistant c ∈ (POSTv1 env mid tid).2 →
          c = (runStreamV1 mid tid env.frames env.streamFails).fullContent ∧ c ≠ [] := by
    unfold POSTv1
    cases hb : env.bodyValid
    · simp
    · cases hc : env.configured
      · simp
      · cases hs : env.sessionUser with
        | none => simp
        | some uid =>
          simp only [Bool.not_true, Bool.false_eq_true, if_false]
          by_cases hr : env.maxMessagesPerDay < env.messageCount
          · simp [hr]
          · rw [if_neg hr]
            cases ho : env.chatOwner with
            | some owner =>
              dsimp only
              by_cases how : owner ≠ uid
              · rw [if_pos how]; simp
              · rw [if_neg how]
                exact POSTv1Rest_assist env mid tid false [] (by simp)
            | none =>
              dsimp only
              cases him : isUserMessage env
              · simp only [Bool.false_eq_true, if_false]
                exact POSTv1Rest_assist env mid tid false [] (by simp)
              · simp only [if_true]
                exact POSTv1Rest_assist env mid tid true [.savedChat]
                  (by simp [isSavedAssistantE])
  refine ⟨main.1, main.2, fun hf hz c hc => ?_⟩
  obtain ⟨hceq, hcne⟩ := main.2 c hc
  apply hcne
  rw [hceq, runStreamV1_fullContent, hf]
  simpa using accumDeltas_of_no_delta _ hz

/-- C3 counterexample -- the claim as stated fails on the code: when
the transcoding session throws before any `text-delta` was emitted,
the stream sent to the client contains zero `text-delta` events, yet
`fullContent` is overwritten with the fixed error text (route.ts
line 396), which is nonempty, so an assistant message holding the
error text IS handed to the Persistence Sink. -/
theorem midstream_error_save_refutes_c3 :
    (POSTv1 envMidstreamThrow "m" "t").1
        = .stream ⟨[.start "m", .error errText, .finish, .done], true, 1⟩
    ∧ ([.start "m", .error errText, .finish, .done] : List NEvent).countP isTextDeltaE = 0
    ∧ Effect.savedAssistant errText ∈ (POSTv1 envMidstreamThrow "m" "t").2 := by
  exact ⟨by decide, by decide, by decide⟩

/-- C3 witness: a request whose upstream stream completes without any
agent content: nothing is handed to the Persistence Sink. -/
theorem assistant_save_at_most_once_witness :
    Effect.savedAssistant "x".toList ∉
      (POSTv1
        { bodyValid := true, configured := true, sessionUser := some "u", messageCount := 0,
          maxMessagesPerDay := 100, chatOwner := some "u",
          message := some ⟨"user", [⟨"text", some "hello"⟩]⟩, backendOk := true,
          backendHasBody := true, frames := [.ping, .content "tools" "secret".toList],
          streamFails := false } "m" "t").2 :=
  (assistant_save_at_most_once _ "m" "t").2.2 rfl (by decide) _

/-- C5 counterexample -- the claim as stated fails on the code: with
`lastEmittedContent = "Hi"` and new content `""` (not a
prefix-extension, not equal), the claim prescribes emitting the entire
new content `""` as the delta, but the code emits nothing because the
empty string is falsy (route.ts line 623). -/
theorem empty_content_refutes_c5 :
    diffStep "Hi".toList [] = ("Hi".toList, none)
    ∧ diffStepClaimed "Hi".toList [] = ("Hi".toList, some [])
    ∧ diffStep "Hi".toList [] ≠ diffStepClaimed "Hi".toList [] := by
  exact ⟨by decide, by decide, by decide⟩

/-- C5 (amended) -- In whole-content diffing mode, for every successive
pair of full-content values: equal or empty new content emits nothing
and leaves `lastEmittedContent` unchanged; content extending
`lastEmittedContent` as a proper prefix emits exactly the suffix; any
other nonempty content emits the entire new content; and
`lastEmittedContent` is updated to the new full content exactly on
every (necessarily nonempty) emitted delta.  For the sequence `"Hi"`,
`"Hi there"`, `"Hi there!"` the deltas are `"Hi"`, `" there"`, `"!"`;
for `"Hi"` followed by `"Bye"` the delta is `"Bye"`. -/
theorem diffStep_spec :
    (∀ last content : List Char, diffStep last content = diffStepAmended last content)
    ∧ (diffRun [] ["Hi".toList, "Hi there".toList, "Hi there!".toList]).2
        = ["Hi".toList, " there".toList, "!".toList]
    ∧ (diffRun [] ["Hi".toList, "Bye".toList]).2 = ["Hi".toList, "Bye".toList] := by
  refine ⟨fun last content => ?_, by decide, by decide⟩
  unfold diffStep diffStepAmended
  by_cases heq : content = last
  · simp [heq]
  · by_cases hnil : content = []
    · simp [heq, hnil]
    · simp only [hnil, heq, Ne, not_false_iff, true_and, and_true, if_neg, or_self,
        if_false, false_or]
      by_cases hpre : last.isPrefixOf content
      · have hpre' : last <+: content := List.isPrefixOf_iff_prefix.mp hpre
        have hlen : last.length < content.length := by
          rcases Nat.lt_or_ge last.length content.length with h | h
          · exact h
          · exact absurd (hpre'.eq_of_length (Nat.le_antisymm hpre'.length_le h)) fun hc =>
              heq hc.symm
        have hdrop : content.drop last.length ≠ [] := by
          intro hd
          have := List.drop_eq_nil_iff.mp hd
          omega
        simp [hpre, hdrop, heq, hnil]
      · simp [hpre, hnil, heq]

theorem append_eq_split {α : Type} {l1 l2 pre post : List α} {x : α}
    (h : l1 ++ l2 = pre ++ x :: post) :
    (∃ b, l1 = pre ++ x :: b ∧ post = b ++ l2) ∨ (∃ a, pre = l1 ++ a ∧ l2 = a ++ x :: post) := by
  induction l1 generalizing pre with
  | nil =>
    right
    exact ⟨pre, rfl, by simpa using h⟩
  | cons y l1 ih =>
    cases pre with
    | nil =>
      simp only [List.cons_append, List.nil_append] at h
      injection h with h1 h2
      left
      exact ⟨l1, by simp [h1], h2.symm⟩
    | cons z pre =>
      simp only [List.cons_append] at h
      injection h with h1 h2
      rcases ih h2 with ⟨b, hb1, hb2⟩ | ⟨a, ha1, ha2⟩
      · left
        exact ⟨b, by rw [h1, hb1]; rfl, hb2⟩
      · right
        exact ⟨a, by rw [h1, ha1]; rfl, ha2⟩

theorem transformGo_cons (tid : String) (st : Bool) (f : UpFrame) (fs : List UpFrame) :
    transformGo tid st (f :: fs)
      = ((transformGo tid (frameStep tid st f).1 fs).1,
         (frameStep tid st f).2 ++ (transformGo tid (frameStep tid st f).1 fs).2) := rfl

/-- Exhaustive description of what one variant-1 frame can do: leave
the state unchanged emitting nothing, a heartbeat or an error; or emit
a delta (span already open); or open the span emitting
`text-start` + `text-delta`. -/
theorem frameStep_cases (tid : String) (st : Bool) (f : UpFrame) :
    ((frameStep tid st f).1 = st ∧
      ((frameStep tid st f).2 = [] ∨ (frameStep tid st f).2 = [.heartbeat]
        ∨ ∃ m, (frameStep tid st f).2 = [.error m]))
    ∨ (st = true ∧ (frameStep tid st f).1 = true
        ∧ ∃ c, c ≠ [] ∧ (frameStep tid st f).2 = [.textDelta tid c])
    ∨ (st = false ∧ (frameStep tid st f).1 = true
        ∧ ∃ c, c ≠ [] ∧ (frameStep tid st f).2 = [.textStart tid, .textDelta tid c]) := by
  cases f with
  | ping => left; exact ⟨rfl, Or.inr (Or.inl rfl)⟩
  | content node c =>
    by_cases hc : c = []
    · left; simp [frameStep, hc]
    · by_cases hn : node = "agent" ∨ node = "model"
      · cases st
        · right; right
          simp [frameStep, hc, hn]
        · right; left
          simp [frameStep, hc, hn]
      · left; simp [frameStep, hc, hn]
  | errorFrame m =>
    by_cases hm : m = []
    · left; simp [frameStep, hm]
    · left
      refine ⟨by simp [frameStep, hm], Or.inr (Or.inr ⟨m, by simp [frameStep, hm]⟩)⟩
  | doneMark => left; simp [frameStep]
  | malformed => left; simp [frameStep]

/-- Every event the variant-1 transcoder loop can emit: a `text-start`
or a nonempty `text-delta` carrying the request's text id, a
heartbeat, or an error.  In particular the loop itself never emits
`start`, `text-end`, `finish` or `done`. -/
theorem transformGo_mem (tid : String) (st : Bool) (fs : List UpFrame) :
    ∀ e ∈ (transformGo tid st fs).2,
      e = .textStart tid ∨ (∃ d, d ≠ [] ∧ e = .textDelta tid d)
      ∨ e = .heartbeat ∨ ∃ m, e = .error m := by
  induction fs generalizing st with
  | nil => simp [transformGo]
  | cons f fs ih =>
    intro e he
    rw [transformGo_cons] at he
    simp only [List.mem_append] at he
    rcases he with he | he
    · rcases frameStep_cases tid st f with ⟨-, h2 | h2 | ⟨m, h2⟩⟩ | ⟨-, -, c, hc, h2⟩
        | ⟨-, -, c, hc, h2⟩
      · rw [h2] at he; simp at he
      · rw [h2] at he; simp at he; exact Or.inr (Or.inr (Or.inl he))
      · rw [h2] at he; simp at he; exact Or.inr (Or.inr (Or.inr ⟨m, he⟩))
      · rw [h2] at he; simp at he; exact Or.inr (Or.inl ⟨c, hc, he⟩)
      · rw [h2] at he; simp at he
        rcases he with he | he
        · exact Or.inl he
        · exact Or.inr (Or.inl ⟨c, hc, he⟩)
    · exact ih _ e he

/-- In the variant-1 transcoder loop's output, every `text-delta` is
preceded by a `text-start` -- unless the span was already open when the
loop started. -/
theorem transformGo_delta_precede (tid : String) (fs : List UpFrame) :
    ∀ (st : Bool) (pre post : List NEvent) (id : String) (d : List Char),
      (transformGo tid st fs).2 = pre ++ .textDelta id d :: post →
      st = true ∨ .textStart tid ∈ pre := by
  induction fs with
  | nil =>
    intro st pre post id d h
    simp only [transformGo] at h
    exact absurd h (by simp)
  | cons f fs ih =>
    intro st pre post id d h
    rw [transformGo_cons] at h
    rcases append_eq_split h with ⟨b, hb1, hb2⟩ | ⟨a, ha1, ha2⟩
    · rcases frameStep_cases tid st f with ⟨-, h2 | h2 | ⟨m, h2⟩⟩ | ⟨hst, -, c, hc, h2⟩
        | ⟨hst, -, c, hc, h2⟩
      · rw [h2] at hb1
        exact absurd hb1 (by simp)
      · rw [h2] at hb1
        rcases pre with _ | ⟨p, ps⟩ <;> simp at hb1
      · rw [h2] at hb1
        rcases pre with _ | ⟨p, ps⟩ <;> simp at hb1
      · exact Or.inl hst
      · rw [h2] at hb1
        right
        rcases pre with _ | ⟨p, ps⟩
        · simp at hb1
        · injection hb1 with hp ht
          rw [← hp]
          exact List.mem_cons_self _ _
    · rcases ih (frameStep tid st f).1 a post id d ha2 with hst | hmem
      · rcases frameStep_cases tid st f with ⟨h1, -⟩ | ⟨hstt, -, -⟩ | ⟨-, -, c, hc, h2⟩
        · exact Or.inl (h1 ▸ hst)
        · exact Or.inl hstt
        · right
          rw [ha1, h2]
          simp
      · right
        rw [ha1]
        exact List.mem_append_right _ hmem

theorem one_elem_split {α : Type} {x y : α} {a post : List α}
    (h : [x] = a ++ y :: post) : a = [] ∧ y = x ∧ post = [] := by
  rcases a with _ | ⟨z, a⟩
  · injection h with h1 h2
    exact ⟨rfl, h1.symm, h2.symm⟩
  · injection h with h1 h2
    exact absurd h2.symm (by simp)

theorem two_elem_split {α : Type} {x1 x2 y : α} {a post : List α}
    (h : [x1, x2] = a ++ y :: post) (h1 : y ≠ x1) (h2 : y ≠ x2) : False := by
  rcases a with _ | ⟨z, a⟩
  · injection h with ha hb
    exact h1 ha.symm
  · rcases a with _ | ⟨w, a⟩
    · injection h with ha hb
      injection hb with hb hc
      exact h2 hb.symm
    · injection h with ha hb
      injection hb with hb hc
      exact absurd hc.symm (by simp)

/-- C4 (amended) -- For every upstream input (any frame sequence, with
or without a mid-stream transcoding failure), the normalized event
stream the variant-1 route delivers to the client satisfies the
ordering invariant. -/
theorem stream_ordering_invariant (mid tid : String) (frames : List UpFrame) (fails : Bool) :
    C4Invariant (postEventsV1 mid tid frames fails) := by
  have hev : postEventsV1 mid tid frames fails
      = .start mid :: ((transformGo tid false frames).2
          ++ ((if fails then [NEvent.error errText]
               else if (transformGo tid false frames).1 then [NEvent.textEnd tid] else [])
             ++ [NEvent.finish, NEvent.done])) := by
    have h := (runStreamV1_spec mid tid frames fails).1
    rw [postEventsV1, h]
    cases fails <;> simp [transformEvents, List.append_assoc]
  set go := transformGo tid false frames with hgo
  set T := (if fails then [NEvent.error errText]
            else if go.1 then [NEvent.textEnd tid] else []) with hTdef
  have hTcases : T = [NEvent.error errText] ∨ T = [NEvent.textEnd tid] ∨ T = [] := by
    rw [hTdef]
    cases fails
    · cases go.1 <;> simp
    · simp
  refine ⟨?_, ?_, ?_, ?_, ?_, ?_⟩
  · -- text-start precedes every text-delta with the same id
    intro pre post id d hsplit
    rw [hev] at hsplit
    rcases pre with _ | ⟨p, ps⟩
    · injection hsplit with h1 h2
      exact absurd h1 (by simp)
    · injection hsplit with h1 h2
      rcases append_eq_split h2 with ⟨b, hb1, hb2⟩ | ⟨a, ha1, ha2⟩
      · have hid : id = tid := by
          have hmem : NEvent.textDelta id d ∈ go.2 := by
            rw [hb1]; simp
          rcases transformGo_mem tid false frames _ hmem with hx | ⟨d', -, hx⟩ | hx
            | ⟨m, hx⟩ <;> simp at hx
          exact hx.1
        rcases transformGo_delta_precede tid frames false ps b id d hb1 with hfalse | hmem
        · exact absurd hfalse (by simp)
        · rw [← h1]
          rw [hid]
          exact List.mem_cons_of_mem _ hmem
      · rcases append_eq_split ha2 with ⟨b', hb1', hb2'⟩ | ⟨a', ha1', ha2'⟩
        · rcases hTcases with hT | hT | hT <;> rw [hT] at hb1'
          · obtain ⟨-, hy, -⟩ := one_elem_split hb1'
            exact absurd hy (by simp)
          · obtain ⟨-, hy, -⟩ := one_elem_split hb1'
            exact absurd hy (by simp)
          · exact absurd hb1' (by simp)
        · exact (two_elem_split ha2' (by simp) (by simp)).elim
  · -- text-end is emitted at most once (for each id)
    intro id
    rw [hev]
    have hgoEnd : go.2.countP (isTextEndE id) = 0 := by
      rw [List.countP_eq_zero]
      intro e he
      rcases transformGo_mem tid false frames e he with h1 | ⟨d', -, h1⟩ | h1
        | ⟨m, h1⟩ <;> rw [h1] <;> simp [isTextEndE]
    rcases hTcases with hT | hT | hT <;> rw [hT] <;>
      simp [List.countP_cons, List.countP_append, hgoEnd, isTextEndE] <;>
      (split <;> simp)
  · -- text-end follows the last text-delta for its id
    intro pre post id hsplit d hd
    rw [hev] at hsplit
    rcases pre with _ | ⟨p, ps⟩
    · injection hsplit with h1 h2
      exact absurd h1 (by simp)
    · injection hsplit with h1 h2
      rcases append_eq_split h2 with ⟨b, hb1, hb2⟩ | ⟨a, ha1, ha2⟩
      · have hmem : NEvent.textEnd id ∈ go.2 := by
          rw [hb1]; simp
        rcases transformGo_mem tid false frames _ hmem with hx | ⟨d', -, hx⟩ | hx
          | ⟨m, hx⟩ <;> simp at hx
      · rcases append_eq_split ha2 with ⟨b', hb1', hb2'⟩ | ⟨a', ha1', ha2'⟩
        · rcases hTcases with hT | hT | hT <;> rw [hT] at hb1'
          · obtain ⟨-, hy, -⟩ := one_elem_split hb1'
            exact absurd hy (by simp)
          · obtain ⟨ha', -, hb'nil⟩ := one_elem_split hb1'
            rw [hb'nil] at hb2'
            rw [hb2'] at hd
            simp at hd
          · exact absurd hb1' (by simp)
        · exact (two_elem_split ha2' (by simp) (by simp)).elim
  · -- finish exactly once
    rw [hev]
    have hgoFin : go.2.countP isFinishE = 0 := by
      rw [List.countP_eq_zero]
      intro e he
      rcases transformGo_mem tid false frames e he with h1 | ⟨d', -, h1⟩ | h1
        | ⟨m, h1⟩ <;> rw [h1] <;> simp [isFinishE]
    rcases hTcases with hT | hT | hT <;> rw [hT] <;>
      simp [List.countP_cons, List.countP_append, hgoFin, isFinishE]
  · -- done exactly once
    rw [hev]
    have hgoDone : go.2.countP isDoneE = 0 := by
      rw [List.countP_eq_zero]
      intro e he
      rcases transformGo_mem tid false frames e he with h1 | ⟨d', -, h1⟩ | h1
        | ⟨m, h1⟩ <;> rw [h1] <;> simp [isDoneE]
    rcases hTcases with hT | hT | hT <;> rw [hT] <;>
      simp [List.countP_cons, List.countP_append, hgoDone, isDoneE]
  · -- finish and done are the last two events
    refine ⟨.start mid :: (go.2 ++ T), ?_⟩
    rw [hev]
    simp [List.append_assoc]

/-- C4 counterexample -- the claim as stated fails on the code, because
its sources include the second route variant: for a well-behaved
upstream that streams one agent update and then the `[DONE]` sentinel,
the variant-2 route delivers `message-start`, the delta, and a single
`finish` produced by the upstream sentinel -- it never writes a
terminal `[DONE]` event, so `Done` is emitted zero times and the
ordering invariant's "`Finish` and `Done` are each emitted exactly
once, always last" clause fails. -/
theorem v2_stream_refutes_c4 :
    postEventsV2 "m" [.agentMsg (some "4".toList), .doneMark] false
        = [.messageStart "m", .textDeltaFlat "4".toList, .finish]
    ∧ ¬ C4Invariant (postEventsV2 "m" [.agentMsg (some "4".toList), .doneMark] false) := by
  have he : postEventsV2 "m" [.agentMsg (some "4".toList), .doneMark] false
      = [.messageStart "m", .textDeltaFlat "4".toList, .finish] := by decide
  refine ⟨he, fun h => ?_⟩
  have hdone := h.2.2.2.2.1
  rw [he] at hdone
  exact absurd hdone (by decide)

/-- C4 witness: on a concrete agent stream, the invariant's first
clause places the `text-start` before the `text-delta`. -/
theorem stream_ordering_invariant_witness :
    NEvent.textStart "t" ∈ [NEvent.start "m", NEvent.textStart "t"] :=
  (stream_ordering_invariant "m" "t" [.content "agent" "4".toList] false).1
    [NEvent.start "m", NEvent.textStart "t"] [NEvent.textEnd "t", NEvent.finish, NEvent.done]
    "t" "4".toList (by decide)

theorem utf8Feed_append (st : Utf8State) (a b : List Nat) :
    utf8Feed st (a ++ b)
      = ((utf8Feed (utf8Feed st a).1 b).1,
         (utf8Feed st a).2 ++ (utf8Feed (utf8Feed st a).1 b).2) := by
  induction a generalizing st with
  | nil => simp [utf8Feed]
  | cons x a ih => simp [utf8Feed, ih, List.append_assoc]

theorem bomFeed_append (seen : Bool) (a b : List Nat) :
    bomFeed seen (a ++ b)
      = ((bomFeed (bomFeed seen a).1 b).1,
         (bomFeed seen a).2 ++ (bomFeed (bomFeed seen a).1 b).2) := by
  induction a generalizing seen with
  | nil => simp [bomFeed]
  | cons x a ih => simp [bomFeed, ih, List.append_assoc]

theorem splitNL_ne_nil (l : List Nat) : splitNL l ≠ [] := by
  cases l with
  | nil => simp [splitNL]
  | cons c rest =>
    by_cases hc : c = 10 <;> simp [splitNL, hc]

theorem getLastD_of_ne_nil {α : Type} (l : List α) (a b : α) (h : l ≠ []) :
    l.getLastD a = l.getLastD b := by
  rw [List.getLastD_eq_getLast?, List.getLastD_eq_getLast?]
  obtain ⟨x, hx⟩ := List.getLast?_isSome.mpr h |> Option.isSome_iff_exists.mp
  rw [hx]
  rfl

/-- `splitCarry` agrees with splitting and popping the last
segment. -/
theorem splitCarry_eq (l : List Nat) :
    splitCarry l = ((splitNL l).dropLast, (splitNL l).getLastD []) := by
  induction l with
  | nil => simp [splitCarry, splitNL]
  | cons c rest ih =>
    obtain ⟨s, ss, hs⟩ := List.exists_cons_of_ne_nil (splitNL_ne_nil rest)
    by_cases hc : c = 10
    · simp only [splitCarry, splitNL, hc, if_true, ih, hs]
      cases ss with
      | nil => simp
      | cons t ts => simp [List.getLastD_cons]
    · simp only [splitCarry, splitNL, hc, if_false, ih, hs]
      cases ss with
      | nil => simp
      | cons t ts =>
        simp only [List.dropLast_cons₂, List.headD_cons, List.tail_cons,
          List.getLastD_cons]

theorem splitCarry_append (x y : List Nat) :
    splitCarry (x ++ y)
      = ((splitCarry x).1 ++ (splitCarry ((splitCarry x).2 ++ y)).1,
         (splitCarry ((splitCarry x).2 ++ y)).2) := by
  induction x with
  | nil => simp [splitCarry]
  | cons c x ih =>
    by_cases hc : c = 10
    · simp [splitCarry, hc, ih]
    · simp only [List.cons_append, splitCarry, hc, if_false]
      cases h1 : (splitCarry x).1 with
      | nil =>
        cases h2 : (splitCarry ((splitCarry x).2 ++ y)).1 with
        | nil => simp only [List.append_eq]; rw [ih]; simp [splitCarry, hc, h1, h2]
        | cons a b => simp only [List.append_eq]; rw [ih]; simp [splitCarry, hc, h1, h2]
      | cons s ss => simp only [List.append_eq]; rw [ih]; simp [h1]

theorem splitCarry_carry_no_nl (l : List Nat) : 10 ∉ (splitCarry l).2 := by
  induction l with
  | nil => simp [splitCarry]
  | cons c rest ih =>
    by_cases hc : c = 10
    · simpa [splitCarry, hc] using ih
    · simp only [splitCarry, hc, if_false]
      cases h1 : (splitCarry rest).1 with
      | nil =>
        simp only []
        intro hmem
        rcases List.mem_cons.mp hmem with h | h
        · exact hc h.symm
        · exact ih h
      | cons s ss => simpa using ih

theorem splitCarry_no_nl (l : List Nat) (h : 10 ∉ l) : splitCarry l = ([], l) := by
  induction l with
  | nil => rfl
  | cons c rest ih =>
    have hc : c ≠ 10 := fun hx => h (by simp [hx])
    have hr : splitCarry rest = ([], rest) := ih fun hx => h (by simp [hx])
    simp [splitCarry, hc, hr]

theorem decodeChunk_eq_carry (st : DecState) (chunk : List Nat) :
    decodeChunk st chunk
      = (⟨(utf8Feed st.utf8 chunk).1, (bomFeed st.bomSeen (utf8Feed st.utf8 chunk).2).1,
          (splitCarry (st.buffer ++ (bomFeed st.bomSeen (utf8Feed st.utf8 chunk).2).2)).2⟩,
         (splitCarry (st.buffer ++ (bomFeed st.bomSeen (utf8Feed st.utf8 chunk).2).2)).1) := by
  rw [decodeChunk]
  rw [splitCarry_eq]

theorem decodeChunk_append (st : DecState) (a b : List Nat) :
    decodeChunk st (a ++ b)
      = ((decodeChunk (decodeChunk st a).1 b).1,
         (decodeChunk st a).2 ++ (decodeChunk (decodeChunk st a).1 b).2) := by
  rw [decodeChunk_eq_carry, decodeChunk_eq_carry, decodeChunk_eq_carry]
  rw [utf8Feed_append, bomFeed_append]
  have hs : st.buffer ++ ((bomFeed st.bomSeen (utf8Feed st.utf8 a).2).2
        ++ (bomFeed (bomFeed st.bomSeen (utf8Feed st.utf8 a).2).1
            (utf8Feed (utf8Feed st.utf8 a).1 b).2).2)
      = (st.buffer ++ (bomFeed st.bomSeen (utf8Feed st.utf8 a).2).2)
        ++ (bomFeed (bomFeed st.bomSeen (utf8Feed st.utf8 a).2).1
            (utf8Feed (utf8Feed st.utf8 a).1 b).2).2 := by
    rw [List.append_assoc]
  rw [hs, splitCarry_append]

theorem decodeChunk_nil (st : DecState) (h : 10 ∉ st.buffer) :
    decodeChunk st [] = (st, []) := by
  rw [decodeChunk_eq_carry]
  simp [utf8Feed, bomFeed, splitCarry_no_nl st.buffer h]

theorem decodeChunk_carry_no_nl (st : DecState) (chunk : List Nat) :
    10 ∉ (decodeChunk st chunk).1.buffer := by
  rw [decodeChunk_eq_carry]
  exact splitCarry_carry_no_nl _

/-- Running the decoder chunk-by-chunk equals decoding the whole byte
sequence in one chunk, provided the carry buffer holds no line feed
(which is invariant). -/
theorem decodePayloads_flatten (cs : List (List Nat)) (st : DecState)
    (h : 10 ∉ st.buffer) :
    decodePayloads st cs
      = ((decodeChunk st cs.flatten).1, payloadsOfLines (decodeChunk st cs.flatten).2) := by
  induction cs generalizing st with
  | nil =>
    simp [decodePayloads, decodeChunk_nil st h, payloadsOfLines]
  | cons c cs ih =>
    simp only [decodePayloads, List.flatten_cons]
    rw [ih _ (decodeChunk_carry_no_nl st c), decodeChunk_append]
    simp [payloadsOfLines, List.filterMap_append]

/-- C7 -- For every upstream byte sequence and every partition of it
into chunks (down to single bytes, including splits inside a multi-byte
UTF-8 character or in the middle of an SSE line), the SSE Frame Decoder
produces the identical final state and the identical sequence of
decoded payloads as when the whole sequence is delivered in one chunk
-- and hence, for any payload parse, the identical emitted event
sequence. -/
theorem decoder_chunking_invariance (chunks : List (List Nat)) :
    decodePayloads initDecState chunks = decodePayloads initDecState [chunks.flatten]
    ∧ ∀ (parse : List Nat → UpFrame) (tid : String),
        transformEvents tid ((decodePayloads initDecState chunks).2.map parse)
          = transformEvents tid ((decodePayloads initDecState [chunks.flatten]).2.map parse) := by
  have h1 := decodePayloads_flatten chunks initDecState (by simp [initDecState])
  have h2 : decodePayloads initDecState [chunks.flatten]
      = ((decodeChunk initDecState chunks.flatten).1,
         payloadsOfLines (decodeChunk initDecState chunks.flatten).2) := by
    simp [decodePayloads]
  refine ⟨h1.trans h2.symm, fun parse tid => ?_⟩
  rw [h1, h2]

/-- Concrete sanity run of the decoder: the bytes of
`data: {e-acute}4\n` (with the two-byte UTF-8 sequence C3 A9 split
across chunk boundaries and the line split byte-by-byte) decode to the
single payload `{e-acute}4`, identically to unsplit delivery. -/
theorem decoder_sanity :
    (decodePayloads initDecState
        [[100], [97, 116], [97], [58], [32], [0xC3], [0xA9], [52, 10]]).2
      = [[0xE9, 52]]
    ∧ (decodePayloads initDecState [[100, 97, 116, 97, 58, 32, 0xC3, 0xA9, 52, 10]]).2
      = [[0xE9, 52]] := by
  exact ⟨by decide, by decide⟩
